import Mathlib

/-!
Shallow embedding of the trading-simulator engine core
(`src/engine-core/src`), covering the market-data model, the trading
state machine with positions, the symbol runner's tick processing, and
the engine's fan-out routing.

Modelling conventions:
* Rust `f64` prices and quantities are embedded as exact rationals
  (`Rat`); the code only compares, adds, subtracts, multiplies and
  divides them.
* `i64` timestamps are `Int`, `u64` volumes are `Nat`.
* Calls to `chrono::Utc::now()` are threaded through as an explicit
  `now : Int` argument.
* `String` payloads that Rust builds with `format!` over floats are
  carried structurally (constructor per format string, holding the
  formatted arguments).
* Rust `tracing` log statements relevant to observable behaviour (which
  auto-exit branch fired) are surfaced as explicit return components.
-/

namespace TradingSim

/-- Side of a position (`Side` in `state_machine/action.rs`, re-exported
by `position.rs`): Long or Short. -/
inductive Side where
  | Long
  | Short
deriving DecidableEq, Repr

/-- A single market bar (`MarketData` in `market_data/mod.rs`).
The Rust field `open` is renamed `open_price` because `open` is a Lean
keyword. -/
structure MarketData where
  symbol : String
  timestamp : Int
  open_price : Rat
  high : Rat
  low : Rat
  close : Rat
  volume : Nat
  bid : Rat
  ask : Rat
deriving DecidableEq, Repr

/-- Error type (`TradingEngineError` in `error.rs`), restricted to the
variants the embedded code constructs. The `InvalidData(String)` variant
carries a `format!`-built message in Rust; the two distinct messages
produced by `MarketData::validate` are modelled as two constructors
carrying the formatted arguments. -/
inductive TradingEngineError where
  | InvalidDataOHLC (high low : Rat)
  | InvalidDataNonPositive
  | NoRunnersForSymbol (symbol : String)
  | ChannelClosed (runner_id : String)
  | RunnerAlreadyExists (runner_id : String)
deriving DecidableEq, Repr

/-- `MarketData::mid_price` (`market_data/mod.rs`). -/
def MarketData.mid_price (d : MarketData) : Rat :=
  (d.bid + d.ask) / 2

/-- `MarketData::validate` (`market_data/mod.rs` lines 174-189):
rejects `high < low`, then `open <= 0.0 || close <= 0.0`; a zero volume
only triggers a `tracing::warn!` and is accepted. -/
def MarketData.validate (d : MarketData) : Except TradingEngineError Unit :=
  if d.high < d.low then
    .error (.InvalidDataOHLC d.high d.low)
  else if d.open_price ≤ 0 ∨ d.close ≤ 0 then
    .error .InvalidDataNonPositive
  else
    -- if d.volume == 0 { tracing::warn!(...) } -- no effect on the result
    .ok ()

/-- A trading position (`Position` in `state_machine/position.rs`). -/
structure Position where
  entry_price : Rat
  quantity : Rat
  side : Side
  entry_timestamp : Int
  current_price : Rat
  stop_loss : Option Rat
  take_profit : Option Rat
  exit_price : Option Rat
  exit_timestamp : Option Int
deriving DecidableEq, Repr

/-- `Position::new`: `current_price` starts at `entry_price`; risk levels
and exit fields start unset. -/
def Position.new (entry_price quantity : Rat) (side : Side)
    (entry_timestamp : Int) : Position :=
  { entry_price := entry_price
    quantity := quantity
    side := side
    entry_timestamp := entry_timestamp
    current_price := entry_price
    stop_loss := none
    take_profit := none
    exit_price := none
    exit_timestamp := none }

/-- `Position::update_current_price`: unconditionally overwrites
`current_price` (there is no closed-check in the source). -/
def Position.update_current_price (p : Position) (price : Rat) : Position :=
  { p with current_price := price }

/-- `Position::set_stop_loss`. -/
def Position.set_stop_loss (p : Position) (stop : Rat) : Position :=
  { p with stop_loss := some stop }

/-- `Position::set_take_profit`. -/
def Position.set_take_profit (p : Position) (target : Rat) : Position :=
  { p with take_profit := some target }

/-- `Position::is_closed`: true once `exit_price` is set. -/
def Position.is_closed (p : Position) : Bool :=
  p.exit_price.isSome

/-- `Position::unrealized_pnl`: `None` when closed, otherwise the signed
price difference times quantity. -/
def Position.unrealized_pnl (p : Position) : Option Rat :=
  if p.is_closed then
    none
  else
    let price_diff :=
      match p.side with
      | .Long => p.current_price - p.entry_price
      | .Short => p.entry_price - p.current_price
    some (price_diff * p.quantity)

/-- `Position::realized_pnl` (`position.rs` lines 207-216): `None` while
`exit_price` is unset, otherwise the signed difference between exit and
entry times quantity. -/
def Position.realized_pnl (p : Position) : Option Rat :=
  match p.exit_price with
  | none => none
  | some exit_price =>
    let price_diff :=
      match p.side with
      | .Long => exit_price - p.entry_price
      | .Short => p.entry_price - exit_price
    some (price_diff * p.quantity)

/-- `Position::close` (`position.rs` lines 229-232): unconditionally
stamps `exit_price` and `exit_timestamp` (there is no already-closed
check in the source). -/
def Position.close (p : Position) (exit_price : Rat)
    (exit_timestamp : Int) : Position :=
  { p with exit_price := some exit_price,
           exit_timestamp := some exit_timestamp }

/-- `Position::is_stop_loss_hit` (`position.rs` lines 247-256): Long
stops when `current_price <= stop`, Short when `current_price >= stop`;
false when no stop is set. -/
def Position.is_stop_loss_hit (p : Position) : Bool :=
  match p.stop_loss with
  | some stop =>
    match p.side with
    | .Long => decide (p.current_price ≤ stop)
    | .Short => decide (stop ≤ p.current_price)
  | none => false

/-- `Position::is_take_profit_hit` (`position.rs` lines 271-280): Long
takes profit when `current_price >= target`, Short when
`current_price <= target`; false when no target is set. -/
def Position.is_take_profit_hit (p : Position) : Bool :=
  match p.take_profit with
  | some target =>
    match p.side with
    | .Long => decide (target ≤ p.current_price)
    | .Short => decide (p.current_price ≤ target)
  | none => false

/-- The three trading states (`State` in `state_machine/state.rs`). -/
inductive State where
  | Idle
  | Analyzing
  | InPosition
deriving DecidableEq, Repr

/-- `State::is_in_position`. -/
def State.is_in_position : State → Bool
  | .InPosition => true
  | _ => false

/-- `State::is_analyzing`. -/
def State.is_analyzing : State → Bool
  | .Analyzing => true
  | _ => false

/-- `State::is_idle`. -/
def State.is_idle : State → Bool
  | .Idle => true
  | _ => false

/-- Modelled from the spec: `src/engine-core/src/state_machine/action.rs`
is not present under `src/` (only `mod.rs` declares and consumes it).
The sum type follows spec section 3's Action description and the match
arms of `StateMachine::execute`; the `Exit` variant is named
`ExitPosition` as in `execute`'s pattern `Action::ExitPosition`. -/
inductive Action where
  | EnterLong (price quantity : Rat)
  | EnterShort (price quantity : Rat)
  | ExitPosition (price : Rat)
  | UpdateStopLoss (new_stop : Rat)
  | UpdateTakeProfit (new_target : Rat)
  | StartAnalyzing (reason : String)
  | CancelAnalysis (reason : String)
  | NoAction
deriving DecidableEq, Repr

/-- Modelled from the spec: `Action::is_entry` lives in the missing
`action.rs`; spec section 4.5 step 6 treats exactly the two entry
actions (`EnterLong`, `EnterShort`) as position-opening. -/
def Action.is_entry : Action → Bool
  | .EnterLong _ _ => true
  | .EnterShort _ _ => true
  | _ => false

/-- Reason string attached to a transition. Rust builds these with
`format!`; each constructor stands for one format string together with
its formatted arguments (`text` is a reason passed through verbatim
from an action). -/
inductive TransitionReason where
  | text (s : String)
  | entered (side : Side) (price quantity : Rat)
  | exited (price pnl pnl_pct : Rat)
deriving DecidableEq, Repr

/-- One state-transition record (`Transition` in `state_machine/mod.rs`).
The Rust fields `from` and `to` are renamed `from_` and `to_` because
both are Lean keywords. -/
structure Transition where
  from_ : State
  to_ : State
  timestamp : Int
  reason : TransitionReason
deriving DecidableEq, Repr

/-- `MAX_TRANSITION_HISTORY` (`state_machine/mod.rs` line 37). -/
def MAX_TRANSITION_HISTORY : Nat := 100

/-- Insert into an association list with `HashMap::insert` semantics:
replace the binding of the key if present, otherwise append it. -/
def insertA {α : Type} : List (String × α) → String → α → List (String × α)
  | [], k, v => [(k, v)]
  | (k', v') :: rest, k, v =>
    if k' = k then (k, v) :: rest else (k', v') :: insertA rest k v

/-- Lookup in an association list (`HashMap::get` semantics). -/
def lookupA {α : Type} : List (String × α) → String → Option α
  | [], _ => none
  | (k', v') :: rest, k => if k' = k then some v' else lookupA rest k

/-- Strategy context (`Context` in `state_machine/context.rs`): four
typed key-value stores; the `HashMap`s are embedded as association
lists. -/
structure Context where
  strings : List (String × String)
  numbers : List (String × Rat)
  integers : List (String × Int)
  booleans : List (String × Bool)
deriving DecidableEq, Repr

/-- `Context::new`: all four stores empty. -/
def Context.new : Context :=
  { strings := [], numbers := [], integers := [], booleans := [] }

/-- `Context::set` at type `f64` (`ContextValue for f64`). -/
def Context.setNumber (ctx : Context) (key : String) (value : Rat) : Context :=
  { ctx with numbers := insertA ctx.numbers key value }

/-- `Context::set` at type `i64` (`ContextValue for i64`). -/
def Context.setInteger (ctx : Context) (key : String) (value : Int) : Context :=
  { ctx with integers := insertA ctx.integers key value }

/-- `Context::set_latest_price`: stores under the `"latest_price"` key. -/
def Context.set_latest_price (ctx : Context) (price : Rat) : Context :=
  ctx.setNumber "latest_price" price

/-- `Context::set_latest_timestamp`: stores under the
`"latest_timestamp"` key. -/
def Context.set_latest_timestamp (ctx : Context) (timestamp : Int) : Context :=
  ctx.setInteger "latest_timestamp" timestamp

/-- The trading state machine (`StateMachine` in `state_machine/mod.rs`):
symbol, current state, context, optional position, and the bounded
`VecDeque` transition history (front of the list = oldest). -/
structure StateMachine where
  symbol : String
  state : State
  context : Context
  position : Option Position
  transition_history : List Transition
deriving DecidableEq, Repr

/-- `StateMachine::new`: Idle, empty context, no position, empty
history. -/
def StateMachine.new (symbol : String) : StateMachine :=
  { symbol := symbol
    state := .Idle
    context := Context.new
    position := none
    transition_history := [] }

/-- `StateMachine::transition_to` (`mod.rs` lines 150-174): records the
transition (push_back, then pop_front when the length exceeds
`MAX_TRANSITION_HISTORY`) and sets the new state. The clock read for the
record's timestamp is the explicit `now` argument. -/
def StateMachine.transition_to (sm : StateMachine) (new_state : State)
    (reason : TransitionReason) (now : Int) : StateMachine :=
  let transition : Transition :=
    { from_ := sm.state, to_ := new_state, timestamp := now, reason := reason }
  let hist := sm.transition_history ++ [transition]
  let hist := if MAX_TRANSITION_HISTORY < hist.length then hist.tail else hist
  { sm with transition_history := hist, state := new_state }

/-- `StateMachine::enter_position` (`mod.rs` lines 304-320): creates a
fresh `Position` (the old one, if any, is overwritten) and transitions
to `InPosition`, unconditionally recording the transition. -/
def StateMachine.enter_position (sm : StateMachine) (entry_price quantity : Rat)
    (side : Side) (now : Int) : StateMachine :=
  let position := Position.new entry_price quantity side now
  let sm := { sm with position := some position }
  sm.transition_to .InPosition (.entered side entry_price quantity) now

/-- `StateMachine::exit_position` (`mod.rs` lines 333-352): takes the
position out, closes it at `exit_price`, transitions to `Idle`, and
returns the closed position; with no position it does nothing and
returns `none`. -/
def StateMachine.exit_position (sm : StateMachine) (exit_price : Rat)
    (now : Int) : StateMachine × Option Position :=
  match sm.position with
  | some pos =>
    let pos := pos.close exit_price now
    let pnl := pos.realized_pnl.getD 0
    let pnl_pct := pnl / (pos.entry_price * pos.quantity) * 100
    let sm := { sm with position := none }
    (sm.transition_to .Idle (.exited exit_price pnl pnl_pct) now, some pos)
  | none => (sm, none)

/-- `StateMachine::execute` (`mod.rs` lines 201-255): dispatches one
action; every arm ends in `Ok(())`, so the result is always `.ok`. -/
def StateMachine.execute (sm : StateMachine) (action : Action)
    (now : Int) : Except TradingEngineError StateMachine :=
  match action with
  | .EnterLong price quantity =>
    .ok (sm.enter_position price quantity .Long now)
  | .EnterShort price quantity =>
    .ok (sm.enter_position price quantity .Short now)
  | .ExitPosition price =>
    .ok (sm.exit_position price now).1
  | .UpdateStopLoss new_stop =>
    .ok (match sm.position with
         | some pos => { sm with position := some (pos.set_stop_loss new_stop) }
         | none => sm)
  | .UpdateTakeProfit new_target =>
    .ok (match sm.position with
         | some pos => { sm with position := some (pos.set_take_profit new_target) }
         | none => sm)
  | .StartAnalyzing reason =>
    .ok (if sm.state.is_idle then sm.transition_to .Analyzing (.text reason) now
         else sm)
  | .CancelAnalysis reason =>
    .ok (if sm.state.is_analyzing then sm.transition_to .Idle (.text reason) now
         else sm)
  | .NoAction => .ok sm

/-- Which auto-exit branch of `StateMachine::update` fired, mirroring
the `tracing::warn!("Stop loss hit")` / `tracing::info!("Take profit
hit")` log statements. -/
inductive ExitTrigger where
  | stopLoss
  | takeProfit
deriving DecidableEq, Repr

/-- `StateMachine::update` (`mod.rs` lines 265-293): writes the latest
price and timestamp into the context; if a position is held, updates its
current price to `data.close`, then checks `is_stop_loss_hit` first and
`is_take_profit_hit` second, auto-exiting at `data.close` when either
holds. The second component records which branch fired. -/
def StateMachine.update (sm : StateMachine) (data : MarketData)
    (now : Int) : StateMachine × Option ExitTrigger :=
  let ctx := (sm.context.set_latest_price data.close).set_latest_timestamp
    data.timestamp
  let sm := { sm with context := ctx }
  match sm.position with
  | some pos =>
    let pos := pos.update_current_price data.close
    let sm := { sm with position := some pos }
    if pos.is_stop_loss_hit then
      ((sm.exit_position data.close now).1, some .stopLoss)
    else if pos.is_take_profit_hit then
      ((sm.exit_position data.close now).1, some .takeProfit)
    else
      (sm, none)
  | none => (sm, none)

/-- Apply `StateMachine::execute` and keep the resulting machine; the
error arm is unreachable since every `execute` arm returns `.ok`. -/
def StateMachine.execOk (sm : StateMachine) (action : Action)
    (now : Int) : StateMachine :=
  match sm.execute action now with
  | .ok sm' => sm'
  | .error _ => sm

/-- Run a list of timestamped actions through `StateMachine::execute`. -/
def StateMachine.execList (sm : StateMachine)
    (acts : List (Action × Int)) : StateMachine :=
  acts.foldl (fun m at_ => m.execOk at_.1 at_.2) sm

/-- Circular buffer of recent bars (`MarketDataWindow` in
`market_data/window.rs`): a `VecDeque` (front = oldest) with a fixed
maximum size. -/
structure MarketDataWindow where
  data : List MarketData
  max_size : Nat
deriving DecidableEq, Repr

/-- `MarketDataWindow::new`. -/
def MarketDataWindow.new (max_size : Nat) : MarketDataWindow :=
  { data := [], max_size := max_size }

/-- `MarketDataWindow::push` (`window.rs` lines 127-132): when the length
has reached `max_size`, pop the front (oldest) first, then push to the
back. -/
def MarketDataWindow.push (w : MarketDataWindow) (market_data : MarketData) :
    MarketDataWindow :=
  let d := if w.max_size ≤ w.data.length then w.data.tail else w.data
  { w with data := d ++ [market_data] }

/-- `MarketDataWindow::len`. -/
def MarketDataWindow.len (w : MarketDataWindow) : Nat :=
  w.data.length

/-- `MarketDataWindow::is_empty`. -/
def MarketDataWindow.is_empty (w : MarketDataWindow) : Bool :=
  w.data.isEmpty

/-- `MarketDataWindow::high` (`window.rs` lines 180-191): `None` on an
empty window, otherwise `max_by` of the highs of up to `period` bars
counted back from the latest (`max_by` of an empty iterator is also
`None`). -/
def MarketDataWindow.high (w : MarketDataWindow) (period : Nat) : Option Rat :=
  if w.data.isEmpty then
    none
  else
    (((w.data.reverse.take period).map (·.high)).max?)

/-- `MarketDataWindow::low` (`window.rs` lines 193-204): as `high` with
`min_by` over the lows. -/
def MarketDataWindow.low (w : MarketDataWindow) (period : Nat) : Option Rat :=
  if w.data.isEmpty then
    none
  else
    (((w.data.reverse.take period).map (·.low)).min?)

/-- `MarketDataWindow::avg_volume` (`window.rs` lines 206-223): `None` on
an empty window or when the collected value list is empty; otherwise the
sum of up to `period` volumes (counted back from the latest) divided by
their count. -/
def MarketDataWindow.avg_volume (w : MarketDataWindow) (period : Nat) :
    Option Rat :=
  if w.data.isEmpty then
    none
  else
    let values := (w.data.reverse.take period).map (·.volume)
    if values.isEmpty then
      none
    else
      some ((values.sum : Rat) / (values.length : Rat))

/-- `MarketDataWindow::closes` (`window.rs` lines 332-342): the closes of
up to `period` bars counted back from the latest, re-reversed to
oldest-to-newest order. -/
def MarketDataWindow.closes (w : MarketDataWindow) (period : Nat) : List Rat :=
  ((w.data.reverse.take period).map (·.close)).reverse

/-- `MarketDataWindow::range` (`window.rs` lines 382-386). -/
def MarketDataWindow.range (w : MarketDataWindow) (period : Nat) : Option Rat :=
  match w.high period, w.low period with
  | some high, some low => some (high - low)
  | _, _ => none

/-- Runner lifecycle events (`RunnerEvent` in `events.rs`), restricted
to the variants `SymbolRunner::process_tick` emits. Fields `from` and
`to` are renamed `from_` and `to_` (Lean keywords). -/
inductive RunnerEvent where
  | TickReceived (runner_id symbol : String) (data : MarketData)
  | StateTransition (runner_id : String) (from_ to_ : State) (reason : String)
      (timestamp : Int)
  | ActionExecuted (runner_id : String) (action : Action) (timestamp : Int)
  | PositionOpened (runner_id : String) (position : Position) (timestamp : Int)
  | PositionUpdated (runner_id : String) (current_price unrealized_pnl : Rat)
      (timestamp : Int)
  | PositionClosed (runner_id : String) (exit_price realized_pnl : Rat)
      (reason : String) (timestamp : Int)
deriving DecidableEq, Repr

/-- Whether an event is a `PositionClosed` event. -/
def RunnerEvent.isPositionClosed : RunnerEvent → Bool
  | .PositionClosed _ _ _ _ _ => true
  | _ => false

/-- The per-symbol runner (`SymbolRunner` in `runner/mod.rs`), restricted
to the state `process_tick` touches. The optional event channel is
modelled as the list of events emitted so far (`emit_event` appends);
strategy, statistics, status and the channels are external effects. -/
structure SymbolRunner where
  runner_id : String
  symbol : String
  window : MarketDataWindow
  state_machine : StateMachine
  events : List RunnerEvent
deriving DecidableEq, Repr

/-- `SymbolRunner::emit_event`: sends on the event channel (modelled as
appending to the emitted-event list). -/
def SymbolRunner.emit_event (r : SymbolRunner) (event : RunnerEvent) :
    SymbolRunner :=
  { r with events := r.events ++ [event] }

/-- `SymbolRunner::process_tick` (`runner/mod.rs` lines 416-543), success
path. The strategy dispatch (`handle_idle` / `handle_analyzing` /
`handle_in_position` calling the external Lua strategy, which is outside
the embedded core) is abstracted by the `act` argument: the optional
action the dispatch returned. Statistics recording and debug logging
have no observable effect here and are omitted. -/
def SymbolRunner.process_tick (r : SymbolRunner) (market_data : MarketData)
    (act : Option Action) (now : Int) : SymbolRunner :=
  let r := r.emit_event (.TickReceived r.runner_id r.symbol market_data)
  let r := { r with window := r.window.push market_data }
  let ctx := (r.state_machine.context.setNumber "latest_price"
    market_data.close).setInteger "latest_timestamp" market_data.timestamp
  let r := { r with state_machine := { r.state_machine with context := ctx } }
  let state_before := r.state_machine.state
  let r :=
    match act with
    | some a =>
      let is_position_open := a.is_entry
      let sm :=
        match r.state_machine.execute a now with
        | .ok m => m
        | .error _ => r.state_machine   -- unreachable: execute always returns Ok
      let r := { r with state_machine := sm }
      let r := r.emit_event (.ActionExecuted r.runner_id a market_data.timestamp)
      if is_position_open then
        match r.state_machine.position with
        | some position =>
          r.emit_event (.PositionOpened r.runner_id position market_data.timestamp)
        | none => r
      else r
    | none => r
  let position_before := r.state_machine.position
  let r := { r with state_machine := (r.state_machine.update market_data now).1 }
  let state_after := r.state_machine.state
  let r :=
    if state_before ≠ state_after then
      r.emit_event (.StateTransition r.runner_id state_before state_after
        "State machine transition" market_data.timestamp)
    else r
  match r.state_machine.position with
  | some position =>
    match position.unrealized_pnl with
    | some unrealized_pnl =>
      r.emit_event (.PositionUpdated r.runner_id market_data.close
        unrealized_pnl market_data.timestamp)
    | none => r
  | none =>
    match position_before with
    | some pos =>
      match pos.realized_pnl with
      | some realized_pnl =>
        r.emit_event (.PositionClosed r.runner_id pos.current_price
          realized_pnl "Position closed" market_data.timestamp)
      | none => r
    | none => r

/-- Handle held by the engine for one runner (`RunnerHandle` in
`runner/engine.rs`). The unbounded data channel sender `tx` is modelled
by the receiving runner's inbox contents plus a flag recording whether
the receiver has been dropped (a send on a closed channel fails); the
command channel, task handle and start time are external effects. -/
structure RunnerHandle where
  runner_id : String
  symbol : String
  inbox : List MarketData
  closed : Bool
deriving DecidableEq, Repr

/-- The engine supervisor (`TradingEngine` in `runner/engine.rs`),
restricted to the routing state: the `runners` map and the
`subscriptions` map (both `HashMap`s, embedded as association lists). -/
structure TradingEngine where
  runners : List (String × RunnerHandle)
  subscriptions : List (String × List String)
deriving DecidableEq, Repr

/-- `TradingEngine::new`: no runners, no subscriptions. -/
def TradingEngine.new : TradingEngine :=
  { runners := [], subscriptions := [] }

/-- `TradingEngine::add_runner_with_config` (`runner/engine.rs` lines
349-454), routing part: reject a duplicate `runner_id`, otherwise record
a fresh handle (empty open inbox) and append the id to
`subscriptions[symbol]` (`entry(..).or_insert(vec![]).push(..)`).
Runner construction, task spawning and the `RunnerStarted` event are
external effects. -/
def TradingEngine.add_runner (e : TradingEngine) (runner_id symbol : String) :
    Except TradingEngineError TradingEngine :=
  if (lookupA e.runners runner_id).isSome then
    .error (.RunnerAlreadyExists runner_id)
  else
    let handle : RunnerHandle :=
      { runner_id := runner_id, symbol := symbol, inbox := [], closed := false }
    let runners := insertA e.runners runner_id handle
    let subs := insertA e.subscriptions symbol
      ((lookupA e.subscriptions symbol).getD [] ++ [runner_id])
    .ok { runners := runners, subscriptions := subs }

/-- The broadcast loop inside `TradingEngine::feed_data`: for each
subscribed runner id, if a handle exists, send a clone of the bar
(append to that runner's inbox), failing with `ChannelClosed` when the
receiver is closed; ids without a handle are skipped. -/
def TradingEngine.feedLoop (e : TradingEngine) (ids : List String)
    (data : MarketData) : Except TradingEngineError TradingEngine :=
  match ids with
  | [] => .ok e
  | runner_id :: rest =>
    match lookupA e.runners runner_id with
    | none => e.feedLoop rest data
    | some handle =>
      if handle.closed then
        .error (.ChannelClosed runner_id)
      else
        let handle := { handle with inbox := handle.inbox ++ [data] }
        let e := { e with runners := insertA e.runners runner_id handle }
        e.feedLoop rest data

/-- `TradingEngine::feed_data` (`runner/engine.rs` lines 552-568): look
up `subscriptions[data.symbol]`; a missing entry yields
`NoRunnersForSymbol`; otherwise broadcast to each subscribed runner in
order, stopping at the first closed channel. -/
def TradingEngine.feed_data (e : TradingEngine) (data : MarketData) :
    Except TradingEngineError TradingEngine :=
  match lookupA e.subscriptions data.symbol with
  | none => .error (.NoRunnersForSymbol data.symbol)
  | some runner_ids => e.feedLoop runner_ids data

/-- Well-formedness of the engine's routing state, maintained by
`add_runner` / `remove_runner`: every subscription list is non-empty,
has no duplicate ids, and every id in it has a handle in `runners`. -/
def TradingEngine.wf (e : TradingEngine) : Prop :=
  ∀ p ∈ e.subscriptions,
    p.2 ≠ [] ∧ p.2.Nodup ∧ ∀ id ∈ p.2, (lookupA e.runners id).isSome

/-- Push a list of bars into a window, oldest first (iterated
`MarketDataWindow::push`). -/
def MarketDataWindow.pushList (w : MarketDataWindow)
    (bars : List MarketData) : MarketDataWindow :=
  bars.foldl MarketDataWindow.push w

instance {ε α : Type} [DecidableEq ε] [DecidableEq α] :
    DecidableEq (Except ε α) := fun a b =>
  match a, b with
  | .ok x, .ok y =>
    if h : x = y then .isTrue (by rw [h]) else .isFalse (by simp [h])
  | .error x, .error y =>
    if h : x = y then .isTrue (by rw [h]) else .isFalse (by simp [h])
  | .ok _, .error _ => .isFalse (by simp)
  | .error _, .ok _ => .isFalse (by simp)

/-- Test fixture: the S1 bar from spec section 8 (close `52500`) on
symbol `"BTCUSDT"`. -/
def barS1 : MarketData :=
  { symbol := "BTCUSDT", timestamp := 99, open_price := 52400, high := 52500,
    low := 52400, close := 52500, volume := 1000, bid := 52490, ask := 52510 }

/-- Test fixture: the S1 position — long `0.1` at `50000`, take profit
`52000`. -/
def posS1 : Position :=
  (Position.new 50000 (1/10) .Long 0).set_take_profit 52000

/-- Test fixture: a fresh `"BTCUSDT"` machine after `EnterLong` at
`50000` for `0.1` and `UpdateTakeProfit 52000` (the S1 scenario). -/
def smS1 : StateMachine :=
  ((StateMachine.new "BTCUSDT").execOk (.EnterLong 50000 (1/10)) 0).execOk
    (.UpdateTakeProfit 52000) 1

/-- Test fixture: a runner holding the S1 state machine, with no events
emitted yet. -/
def runnerS1 : SymbolRunner :=
  { runner_id := "btc", symbol := "BTCUSDT", window := .new 50,
    state_machine := smS1, events := [] }

/-- Test fixture: a bar whose OHLC fields are valid but whose `ask` is
below its `bid`. -/
def barAskBelowBid : MarketData :=
  { symbol := "BTC", timestamp := 0, open_price := 100, high := 110,
    low := 90, close := 105, volume := 1000, bid := 106, ask := 104 }

/-- Test fixture: a long position already closed once (entered `50000`,
closed at `51000`). -/
def posClosedOnce : Position :=
  (Position.new 50000 (1/10) .Long 0).close 51000 10

/-- Test fixture: an open long position, quantity `2` at `50000`. -/
def posLong : Position := Position.new 50000 2 .Long 0

/-- Test fixture: an open short position, quantity `2` at `50000`. -/
def posShort : Position := Position.new 50000 2 .Short 0

/-- Test fixture: an `"ETHUSDT"` bar. -/
def barEth : MarketData :=
  { symbol := "ETHUSDT", timestamp := 0, open_price := 3000, high := 3000,
    low := 3000, close := 3000, volume := 10, bid := 2999, ask := 3001 }

/-- Test fixture: an engine with one runner `"a"` subscribed to
`"ETHUSDT"`. -/
def engineEth : TradingEngine :=
  match TradingEngine.new.add_runner "a" "ETHUSDT" with
  | .ok e => e
  | .error _ => TradingEngine.new

/-- The state/position invariant of the FSM: the machine is in
`InPosition` exactly when it holds a position, and any held position is
open. -/
def StateInv (m : StateMachine) : Prop :=
  (m.state = .InPosition ↔ m.position.isSome) ∧
  ∀ p ∈ m.position, p.is_closed = false

/-- A `transition_to` call leaves the position untouched. -/
theorem StateMachine.transition_to_position (sm : StateMachine) (s : State)
    (r : TransitionReason) (t : Int) :
    (sm.transition_to s r t).position = sm.position := rfl

/-- A `transition_to` call sets the state to its target. -/
theorem StateMachine.transition_to_state (sm : StateMachine) (s : State)
    (r : TransitionReason) (t : Int) :
    (sm.transition_to s r t).state = s := rfl

/-- Appending an entry to a history and then dropping the oldest entry
when over the bound leaves the appended entry last. -/
theorem getLast_push_bounded (l : List Transition) (x : Transition) :
    (if MAX_TRANSITION_HISTORY < (l ++ [x]).length then (l ++ [x]).tail
     else l ++ [x]).getLast? = some x := by
  by_cases h : MAX_TRANSITION_HISTORY < (l ++ [x]).length
  · simp only [h, if_true]
    cases l with
    | nil => simp [MAX_TRANSITION_HISTORY] at h
    | cons a l' => simp
  · simp only [h, if_false]
    simp

/-- The record a `transition_to` call appends is the last entry of the
resulting history, whether or not the bound forced a pop of the oldest
entry. -/
theorem StateMachine.transition_to_getLast (sm : StateMachine) (s : State)
    (r : TransitionReason) (t : Int) :
    (sm.transition_to s r t).transition_history.getLast? =
      some { from_ := sm.state, to_ := s, timestamp := t, reason := r } :=
  getLast_push_bounded sm.transition_history _

/-- C4 counterexample: a position closed once at `51000` and then closed
again at `52000` has its exit fields overwritten (not left unchanged),
and `update_current_price` on a closed position changes
`current_price`. -/
theorem claim_C4_counterexample :
    posClosedOnce.exit_price = some 51000 ∧
    (posClosedOnce.close 52000 20).exit_price ≠ posClosedOnce.exit_price ∧
    (posClosedOnce.close 52000 20).exit_price = some 52000 ∧
    (posClosedOnce.close 52000 20).exit_timestamp = some 20 ∧
    posClosedOnce.current_price = 50000 ∧
    (posClosedOnce.update_current_price 777).current_price ≠
      posClosedOnce.current_price := by
  decide

/-- C4 (amended): `Position::close` unconditionally stamps the exit
fields with its arguments — a second `close` overwrites them — and
`Position::update_current_price` sets `current_price` regardless of
whether the position is closed. -/
theorem claim_C4_amended (p : Position) (px : Rat) (ts : Int) :
    (p.close px ts).exit_price = some px ∧
    (p.close px ts).exit_timestamp = some ts ∧
    (p.update_current_price px).current_price = px :=
  ⟨rfl, rfl, rfl⟩

/-- C5 counterexample: a bar with `ask < bid` but valid OHLC passes
`validate`, refuting the claimed `ask ≥ bid` conjunct of the
acceptance condition. -/
theorem claim_C5_counterexample :
    barAskBelowBid.validate = .ok () ∧
    barAskBelowBid.ask < barAskBelowBid.bid := by
  decide

/-- C5 (amended): `MarketData::validate` returns `Ok` exactly when
`high ≥ low`, `open > 0` and `close > 0`; bid/ask consistency is not
checked, and a zero-volume bar satisfying these is accepted. -/
theorem claim_C5_amended (d : MarketData) :
    d.validate = .ok () ↔ (d.low ≤ d.high ∧ 0 < d.open_price ∧ 0 < d.close) := by
  unfold MarketData.validate
  by_cases h1 : d.high < d.low
  · simp only [h1, if_true]
    constructor
    · intro h; cases h
    · rintro ⟨hle, -⟩; exact absurd h1 (not_lt.mpr hle)
  · simp only [h1, if_false]
    by_cases h2 : d.open_price ≤ 0 ∨ d.close ≤ 0
    · simp only [h2, if_true]
      constructor
      · intro h; cases h
      · rintro ⟨-, ho, hc⟩
        rcases h2 with h2 | h2
        · exact absurd ho (not_lt.mpr h2)
        · exact absurd hc (not_lt.mpr h2)
    · simp only [h2, if_false]
      push_neg at h2
      exact ⟨fun _ => ⟨not_lt.mp h1, h2.1, h2.2⟩, fun _ => by trivial⟩

/-- C6: an action whose precondition is unmet leaves the machine
entirely unchanged and still returns success: `ExitPosition` with no
position held, `StartAnalyzing` outside `Idle`, and `CancelAnalysis`
outside `Analyzing` all return `.ok` with the machine untouched (in
particular no transition is recorded). -/
theorem claim_C6_rejected_actions (m : StateMachine) (px : Rat)
    (r1 r2 : String) (now : Int) :
    (m.position = none → m.execute (.ExitPosition px) now = .ok m) ∧
    (m.state ≠ .Idle → m.execute (.StartAnalyzing r1) now = .ok m) ∧
    (m.state ≠ .Analyzing → m.execute (.CancelAnalysis r2) now = .ok m) := by
  refine ⟨fun h => ?_, fun h => ?_, fun h => ?_⟩
  · simp [StateMachine.execute, StateMachine.exit_position, h]
  · have hb : m.state.is_idle = false := by
      cases hs : m.state <;> simp_all [State.is_idle]
    simp [StateMachine.execute, hb]
  · have hb : m.state.is_analyzing = false := by
      cases hs : m.state <;> simp_all [State.is_analyzing]
    simp [StateMachine.execute, hb]

/-- C6 witness: a fresh machine rejects `ExitPosition` and
`CancelAnalysis` unchanged, and a machine in `Analyzing` rejects
`StartAnalyzing` unchanged. -/
theorem claim_C6_witness :
    ((StateMachine.new "BTCUSDT").execute (.ExitPosition 100) 1 =
      .ok (StateMachine.new "BTCUSDT")) ∧
    (((StateMachine.new "BTCUSDT").execOk (.StartAnalyzing "opp") 0).execute
        (.StartAnalyzing "again") 1 =
      .ok ((StateMachine.new "BTCUSDT").execOk (.StartAnalyzing "opp") 0)) ∧
    ((StateMachine.new "BTCUSDT").execute (.CancelAnalysis "no") 1 =
      .ok (StateMachine.new "BTCUSDT")) :=
  ⟨(claim_C6_rejected_actions (StateMachine.new "BTCUSDT") 100 "x" "no" 1).1 rfl,
   (claim_C6_rejected_actions
      ((StateMachine.new "BTCUSDT").execOk (.StartAnalyzing "opp") 0)
      100 "again" "x" 1).2.1 (by decide),
   (claim_C6_rejected_actions (StateMachine.new "BTCUSDT") 100 "x" "no" 1).2.2
     (by decide)⟩

/-- C7: a position closed via `close(e, ts)` realizes exactly
`(e - entry) * qty` when Long and `(entry - e) * qty` when Short;
`realized_pnl` is `None` while open and `unrealized_pnl` is `None` once
closed. -/
theorem claim_C7_pnl (p : Position) (e : Rat) (ts : Int) :
    (p.side = .Long →
      (p.close e ts).realized_pnl = some ((e - p.entry_price) * p.quantity)) ∧
    (p.side = .Short →
      (p.close e ts).realized_pnl = some ((p.entry_price - e) * p.quantity)) ∧
    (p.exit_price = none → p.realized_pnl = none) ∧
    (p.is_closed = true → p.unrealized_pnl = none) := by
  refine ⟨fun h => ?_, fun h => ?_, fun h => ?_, fun h => ?_⟩
  · simp [Position.close, Position.realized_pnl, h]
  · simp [Position.close, Position.realized_pnl, h]
  · simp [Position.realized_pnl, h]
  · simp [Position.unrealized_pnl, h]

/-- C7 witness: concrete long and short positions with quantity `2`. -/
theorem claim_C7_witness :
    ((posLong.close 51000 10).realized_pnl =
      some ((51000 - posLong.entry_price) * posLong.quantity)) ∧
    ((posShort.close 49000 10).realized_pnl =
      some ((posShort.entry_price - 49000) * posShort.quantity)) ∧
    (posLong.realized_pnl = none) ∧
    ((posLong.close 51000 10).unrealized_pnl = none) :=
  ⟨(claim_C7_pnl posLong 51000 10).1 rfl,
   (claim_C7_pnl posShort 49000 10).2.1 rfl,
   (claim_C7_pnl posLong 0 0).2.2.1 rfl,
   (claim_C7_pnl (posLong.close 51000 10) 0 0).2.2.2 rfl⟩

/-- `is_idle` holds exactly in state `Idle`. -/
theorem State.is_idle_eq (s : State) : s.is_idle = true ↔ s = .Idle := by
  cases s <;> simp [State.is_idle]

/-- `is_analyzing` holds exactly in state `Analyzing`. -/
theorem State.is_analyzing_eq (s : State) :
    s.is_analyzing = true ↔ s = .Analyzing := by
  cases s <;> simp [State.is_analyzing]

/-- A fresh machine satisfies the state/position invariant. -/
theorem stateInv_new (sym : String) : StateInv (StateMachine.new sym) := by
  constructor
  · simp [StateMachine.new]
  · intro p hp
    simp [StateMachine.new] at hp

/-- One `execute` step preserves the state/position invariant. -/
theorem stateInv_execOk (m : StateMachine) (a : Action) (t : Int)
    (h : StateInv m) : StateInv (m.execOk a t) := by
  obtain ⟨h1, h2⟩ := h
  cases a with
  | EnterLong price qty =>
    refine ⟨by simp [StateMachine.execOk, StateMachine.execute,
      StateMachine.enter_position, StateMachine.transition_to], ?_⟩
    intro p hp
    simp [StateMachine.execOk, StateMachine.execute,
      StateMachine.enter_position, StateMachine.transition_to] at hp
    subst hp
    rfl
  | EnterShort price qty =>
    refine ⟨by simp [StateMachine.execOk, StateMachine.execute,
      StateMachine.enter_position, StateMachine.transition_to], ?_⟩
    intro p hp
    simp [StateMachine.execOk, StateMachine.execute,
      StateMachine.enter_position, StateMachine.transition_to] at hp
    subst hp
    rfl
  | ExitPosition price =>
    cases hpos : m.position with
    | none =>
      constructor
      · simpa [StateMachine.execOk, StateMachine.execute,
          StateMachine.exit_position, hpos] using h1
      · intro p hp
        simp [StateMachine.execOk, StateMachine.execute,
          StateMachine.exit_position, hpos] at hp
    | some pos =>
      constructor
      · simp [StateMachine.execOk, StateMachine.execute,
          StateMachine.exit_position, hpos, StateMachine.transition_to]
      · intro p hp
        simp [StateMachine.execOk, StateMachine.execute,
          StateMachine.exit_position, hpos, StateMachine.transition_to] at hp
  | UpdateStopLoss new_stop =>
    cases hpos : m.position with
    | none =>
      constructor
      · simpa [StateMachine.execOk, StateMachine.execute, hpos] using h1
      · intro p hp
        simp [StateMachine.execOk, StateMachine.execute, hpos] at hp
    | some pos =>
      constructor
      · simp only [StateMachine.execOk, StateMachine.execute, hpos]
        simpa [hpos] using h1
      · intro p hp
        simp [StateMachine.execOk, StateMachine.execute, hpos] at hp
        subst hp
        have := h2 pos (by simp [hpos])
        simpa [Position.set_stop_loss, Position.is_closed] using this
  | UpdateTakeProfit new_target =>
    cases hpos : m.position with
    | none =>
      constructor
      · simpa [StateMachine.execOk, StateMachine.execute, hpos] using h1
      · intro p hp
        simp [StateMachine.execOk, StateMachine.execute, hpos] at hp
    | some pos =>
      constructor
      · simp only [StateMachine.execOk, StateMachine.execute, hpos]
        simpa [hpos] using h1
      · intro p hp
        simp [StateMachine.execOk, StateMachine.execute, hpos] at hp
        subst hp
        have := h2 pos (by simp [hpos])
        simpa [Position.set_take_profit, Position.is_closed] using this
  | StartAnalyzing reason =>
    by_cases hs : m.state.is_idle
    · have hstate : m.state = .Idle := (State.is_idle_eq m.state).mp hs
      have hnone : m.position = none := by
        cases hpos : m.position with
        | none => rfl
        | some pos =>
          have : m.state = .InPosition := h1.mpr (by simp [hpos])
          rw [hstate] at this
          cases this
      constructor
      · simp [StateMachine.execOk, StateMachine.execute, hs,
          StateMachine.transition_to, hnone]
      · intro p hp
        simp [StateMachine.execOk, StateMachine.execute, hs,
          StateMachine.transition_to, hnone] at hp
    · constructor
      · simpa [StateMachine.execOk, StateMachine.execute, hs] using h1
      · intro p hp
        simp [StateMachine.execOk, StateMachine.execute, hs] at hp
        exact h2 p (by simp [hp])
  | CancelAnalysis reason =>
    by_cases hs : m.state.is_analyzing
    · have hstate : m.state = .Analyzing := (State.is_analyzing_eq m.state).mp hs
      have hnone : m.position = none := by
        cases hpos : m.position with
        | none => rfl
        | some pos =>
          have : m.state = .InPosition := h1.mpr (by simp [hpos])
          rw [hstate] at this
          cases this
      constructor
      · simp [StateMachine.execOk, StateMachine.execute, hs,
          StateMachine.transition_to, hnone]
      · intro p hp
        simp [StateMachine.execOk, StateMachine.execute, hs,
          StateMachine.transition_to, hnone] at hp
    · constructor
      · simpa [StateMachine.execOk, StateMachine.execute, hs] using h1
      · intro p hp
        simp [StateMachine.execOk, StateMachine.execute, hs] at hp
        exact h2 p (by simp [hp])
  | NoAction =>
    exact ⟨h1, h2⟩

/-- The state/position invariant is preserved along any action list. -/
theorem stateInv_execList (acts : List (Action × Int)) :
    ∀ m : StateMachine, StateInv m → StateInv (m.execList acts) := by
  induction acts with
  | nil => intro m h; exact h
  | cons a rest ih =>
    intro m h
    exact ih (m.execOk a.1 a.2) (stateInv_execOk m a.1 a.2 h)

/-- C2: after any sequence of actions applied to a fresh machine, the
machine is in `InPosition` exactly when it holds a position and that
position is open. -/
theorem claim_C2_fsm_invariant (sym : String) (acts : List (Action × Int)) :
    ((StateMachine.new sym).execList acts).state = State.InPosition ↔
      ∃ p, ((StateMachine.new sym).execList acts).position = some p ∧
        p.is_closed = false := by
  obtain ⟨h1, h2⟩ := stateInv_execList acts (StateMachine.new sym)
    (stateInv_new sym)
  constructor
  · intro hs
    obtain ⟨p, hp⟩ := Option.isSome_iff_exists.mp (h1.mp hs)
    exact ⟨p, hp, h2 p (by simp [hp])⟩
  · rintro ⟨p, hp, -⟩
    exact h1.mpr (by simp [hp])

/-- C10: executing an entry action while a position is already held
silently replaces the held position with a freshly created one (the old
record is discarded unclosed — the new position is `Position.new`, not
derived from the old one, and the recorded transition carries an
`entered` reason, not an `exited` one), and a transition to `InPosition`
is recorded even though no state may change. -/
theorem claim_C10_silent_replace (m : StateMachine) (p : Position)
    (price qty : Rat) (now : Int) (_hpos : m.position = some p) :
    (∃ m', m.execute (.EnterLong price qty) now = .ok m' ∧
      m'.position = some (Position.new price qty .Long now) ∧
      m'.state = .InPosition ∧
      m'.transition_history.getLast? =
        some { from_ := m.state, to_ := .InPosition, timestamp := now,
               reason := .entered .Long price qty }) ∧
    (∃ m', m.execute (.EnterShort price qty) now = .ok m' ∧
      m'.position = some (Position.new price qty .Short now) ∧
      m'.state = .InPosition ∧
      m'.transition_history.getLast? =
        some { from_ := m.state, to_ := .InPosition, timestamp := now,
               reason := .entered .Short price qty }) := by
  constructor
  · refine ⟨m.enter_position price qty .Long now, rfl, rfl, rfl, ?_⟩
    exact StateMachine.transition_to_getLast _ _ _ _
  · refine ⟨m.enter_position price qty .Short now, rfl, rfl, rfl, ?_⟩
    exact StateMachine.transition_to_getLast _ _ _ _

/-- C10 witness: re-entering long at `60000` on the S1 machine (which
already holds a position). -/
theorem claim_C10_witness :
    (∃ m', smS1.execute (.EnterLong 60000 1) 7 = .ok m' ∧
      m'.position = some (Position.new 60000 1 .Long 7) ∧
      m'.state = .InPosition ∧
      m'.transition_history.getLast? =
        some { from_ := smS1.state, to_ := .InPosition, timestamp := 7,
               reason := .entered .Long 60000 1 }) ∧
    (∃ m', smS1.execute (.EnterShort 60000 1) 7 = .ok m' ∧
      m'.position = some (Position.new 60000 1 .Short 7) ∧
      m'.state = .InPosition ∧
      m'.transition_history.getLast? =
        some { from_ := smS1.state, to_ := .InPosition, timestamp := 7,
               reason := .entered .Short 60000 1 }) :=
  claim_C10_silent_replace smS1 posS1 60000 1 7 rfl

/-- C1 (failing-input evaluation): in the S1 scenario — runner holding a
long `0.1` at `50000` with take profit `52000`, tick with close `52500`,
strategy returning no action — the tick auto-exits (state becomes Idle,
position cleared) yet the emitted event list contains no
`PositionClosed` event at all: the `position_before` clone is taken
before `update` closes the position, so its `realized_pnl()` is `None`
and the emit is skipped. -/
theorem claim_C1_no_position_closed_event :
    runnerS1.state_machine.position.isSome = true ∧
    (runnerS1.process_tick barS1 none 2).state_machine.state = State.Idle ∧
    (runnerS1.process_tick barS1 none 2).state_machine.position = none ∧
    ((runnerS1.process_tick barS1 none 2).events.filter
      RunnerEvent.isPositionClosed) = [] := by
  decide

/-- With a position held, `exit_position` clears it, moves to `Idle`,
and records an `exited` transition at the exit price. -/
theorem exit_position_spec (sm : StateMachine) (pos : Position) (px : Rat)
    (t : Int) (h : sm.position = some pos) :
    (sm.exit_position px t).1.position = none ∧
    (sm.exit_position px t).1.state = .Idle ∧
    (sm.exit_position px t).1.transition_history.getLast? =
      some { from_ := sm.state, to_ := .Idle, timestamp := t,
             reason := .exited px ((pos.close px t).realized_pnl.getD 0)
               (((pos.close px t).realized_pnl.getD 0) /
                 ((pos.close px t).entry_price * (pos.close px t).quantity) *
                   100) } := by
  unfold StateMachine.exit_position
  simp only [h]
  exact ⟨rfl, rfl, StateMachine.transition_to_getLast _ _ _ _⟩

/-- C3: if `update(bar)` runs with a position held and, at the updated
current price `bar.close`, the stop or target predicate holds, then
afterwards the position is gone and the state is `Idle`, the recorded
exit happened at exactly `bar.close`, and the stop predicate takes
precedence: whenever it holds the stop branch fires, and the take-profit
branch fires only when the stop predicate is false. -/
theorem claim_C3_auto_exit (sm : StateMachine) (p : Position)
    (bar : MarketData) (now : Int) (hpos : sm.position = some p)
    (hhit : (p.update_current_price bar.close).is_stop_loss_hit = true ∨
            (p.update_current_price bar.close).is_take_profit_hit = true) :
    (sm.update bar now).1.position = none ∧
    (sm.update bar now).1.state = .Idle ∧
    (∃ pnl pct, (sm.update bar now).1.transition_history.getLast? =
      some { from_ := sm.state, to_ := .Idle, timestamp := now,
             reason := .exited bar.close pnl pct }) ∧
    ((p.update_current_price bar.close).is_stop_loss_hit = true →
      (sm.update bar now).2 = some .stopLoss) ∧
    ((p.update_current_price bar.close).is_stop_loss_hit = false →
      (p.update_current_price bar.close).is_take_profit_hit = true →
      (sm.update bar now).2 = some .takeProfit) := by
  by_cases hstop : (p.update_current_price bar.close).is_stop_loss_hit
  · have heq : sm.update bar now =
        ((StateMachine.exit_position
            { sm with
              context := (sm.context.set_latest_price bar.close)
                |>.set_latest_timestamp bar.timestamp,
              position := some (p.update_current_price bar.close) }
            bar.close now).1, some .stopLoss) := by
      unfold StateMachine.update
      simp only [hpos, hstop, if_true]
    obtain ⟨e1, e2, e3⟩ := exit_position_spec
      { sm with
        context := (sm.context.set_latest_price bar.close)
          |>.set_latest_timestamp bar.timestamp,
        position := some (p.update_current_price bar.close) }
      (p.update_current_price bar.close) bar.close now rfl
    refine ⟨?_, ?_, ?_, fun _ => ?_, fun hns _ => ?_⟩
    · rw [heq]; exact e1
    · rw [heq]; exact e2
    · rw [heq]; exact ⟨_, _, e3⟩
    · rw [heq]
    · rw [hstop] at hns; cases hns
  · have htp : (p.update_current_price bar.close).is_take_profit_hit = true := by
      rcases hhit with h | h
      · exact absurd h hstop
      · exact h
    have hstop' : (p.update_current_price bar.close).is_stop_loss_hit = false :=
      Bool.not_eq_true _ |>.mp hstop
    have heq : sm.update bar now =
        ((StateMachine.exit_position
            { sm with
              context := (sm.context.set_latest_price bar.close)
                |>.set_latest_timestamp bar.timestamp,
              position := some (p.update_current_price bar.close) }
            bar.close now).1, some .takeProfit) := by
      unfold StateMachine.update
      simp only [hpos, hstop', htp, if_true, if_false, Bool.false_eq_true]
    obtain ⟨e1, e2, e3⟩ := exit_position_spec
      { sm with
        context := (sm.context.set_latest_price bar.close)
          |>.set_latest_timestamp bar.timestamp,
        position := some (p.update_current_price bar.close) }
      (p.update_current_price bar.close) bar.close now rfl
    refine ⟨?_, ?_, ?_, fun hs => ?_, fun _ _ => ?_⟩
    · rw [heq]; exact e1
    · rw [heq]; exact e2
    · rw [heq]; exact ⟨_, _, e3⟩
    · rw [hstop'] at hs; cases hs
    · rw [heq]

/-- C3 witness: the S1 scenario — a long `0.1` at `50000` with take
profit `52000` auto-exits on a bar closing at `52500`. -/
theorem claim_C3_witness :
    smS1.position = some posS1 ∧
    (posS1.update_current_price barS1.close).is_take_profit_hit = true ∧
    ((smS1.update barS1 2).1.position = none ∧
     (smS1.update barS1 2).1.state = .Idle ∧
     (∃ pnl pct, (smS1.update barS1 2).1.transition_history.getLast? =
       some { from_ := smS1.state, to_ := .Idle, timestamp := 2,
              reason := .exited barS1.close pnl pct }) ∧
     ((posS1.update_current_price barS1.close).is_stop_loss_hit = true →
       (smS1.update barS1 2).2 = some .stopLoss) ∧
     ((posS1.update_current_price barS1.close).is_stop_loss_hit = false →
       (posS1.update_current_price barS1.close).is_take_profit_hit = true →
       (smS1.update barS1 2).2 = some .takeProfit)) :=
  ⟨rfl, by decide,
   claim_C3_auto_exit smS1 posS1 barS1 2 rfl (Or.inr (by decide))⟩

/-- C8 counterexample: with capacity `0` a push leaves one bar (pop of
the empty front, then append), not `min 1 0 = 0` bars; and on a
non-empty window `high(0)` is `None` (`max_by` over the empty
iterator), so the "None exactly when empty" part also fails. -/
theorem claim_C8_counterexample :
    ((MarketDataWindow.new 0).push barS1).len = 1 ∧
    ¬ ((MarketDataWindow.new 0).push barS1).len = min 1 0 ∧
    ((MarketDataWindow.new 3).push barS1).is_empty = false ∧
    ((MarketDataWindow.new 3).push barS1).high 0 = none := by
  decide

/-- Pushing a list of bars into a window whose length is within a
capacity of at least one keeps exactly the most recent bars. -/
theorem pushList_data (c : Nat) (hc : 1 ≤ c) :
    ∀ (L : List MarketData) (w : MarketDataWindow),
      w.max_size = c → w.data.length ≤ c →
      (w.pushList L).data =
        (w.data ++ L).drop ((w.data.length + L.length) - c) := by
  intro L
  induction L with
  | nil =>
    intro w _ hl
    simp only [MarketDataWindow.pushList, List.foldl_nil, List.append_nil,
      List.length_nil, Nat.add_zero]
    rw [Nat.sub_eq_zero_of_le hl, List.drop_zero]
  | cons b L' ih =>
    intro w hm hl
    have hstep : w.pushList (b :: L') = (w.push b).pushList L' := rfl
    rw [hstep]
    by_cases hge : w.max_size ≤ w.data.length
    · have hlen : w.data.length = c := le_antisymm hl (hm ▸ hge)
      cases hdata : w.data with
      | nil => rw [hdata] at hlen; simp at hlen; omega
      | cons a t =>
        have hc' : t.length + 1 = c := by
          rw [hdata] at hlen; simpa using hlen
        have hpush : (w.push b).data = t ++ [b] := by
          simp only [MarketDataWindow.push, if_pos hge]
          rw [hdata]
          rfl
        have hlen2 : (w.push b).data.length ≤ c := by
          rw [hpush]; simp; omega
        have hres := ih (w.push b) (by simp [MarketDataWindow.push, hm]) hlen2
        rw [hres, hpush]
        have e1 : (t ++ [b]).length + L'.length - c = L'.length := by
          simp only [List.length_append, List.length_cons, List.length_nil]
          omega
        have e2 : (a :: t).length + (b :: L').length - c = L'.length + 1 := by
          simp only [List.length_cons]
          omega
        rw [e1, e2]
        rw [List.append_assoc, List.singleton_append, List.cons_append,
          List.drop_succ_cons]
    · have hpush : (w.push b).data = w.data ++ [b] := by
        simp [MarketDataWindow.push, hge]
      have hlt : w.data.length < c := by
        rw [hm] at hge; omega
      have := ih (w.push b) (by simp [MarketDataWindow.push, hm])
        (by rw [hpush]; simp; omega)
      rw [this, hpush]
      have h1 : (w.data ++ [b]).length + L'.length - c =
          w.data.length + (b :: L').length - c := by
        simp only [List.length_append, List.length_cons, List.length_nil]
        omega
      rw [h1]
      simp [List.append_assoc]

/-- C8 (amended): for capacity `c ≥ 1` the window always holds the most
recent `min(pushed, c)` bars; `closes(n)` is the closes of the last
`min(n, len)` bars ordered oldest to newest; and `high(n)` / `low(n)` /
`avg_volume(n)` return `None` exactly when the window is empty or
`n = 0`. -/
theorem claim_C8_amended (c : Nat) (hc : 1 ≤ c) (L : List MarketData)
    (w : MarketDataWindow) (n : Nat) :
    ((MarketDataWindow.new c).pushList L).data = L.drop (L.length - c) ∧
    ((MarketDataWindow.new c).pushList L).len = min L.length c ∧
    w.closes n = (w.data.drop (w.data.length - n)).map (·.close) ∧
    (w.high n = none ↔ (w.data = [] ∨ n = 0)) ∧
    (w.low n = none ↔ (w.data = [] ∨ n = 0)) ∧
    (w.avg_volume n = none ↔ (w.data = [] ∨ n = 0)) := by
  have hdata : ((MarketDataWindow.new c).pushList L).data =
      L.drop (L.length - c) := by
    have := pushList_data c hc L (MarketDataWindow.new c) rfl (by simp [MarketDataWindow.new])
    simpa [MarketDataWindow.new] using this
  refine ⟨hdata, ?_, ?_, ?_, ?_, ?_⟩
  · rw [MarketDataWindow.len, hdata, List.length_drop]
    omega
  · rw [MarketDataWindow.closes, ← List.map_reverse, ← List.rtake_eq_reverse_take_reverse,
      List.rtake]
  · rw [MarketDataWindow.high]
    by_cases hd : w.data = []
    · simp [hd]
    · rw [if_neg (by simp [hd])]
      rw [List.max?_eq_none_iff, List.map_eq_nil_iff, List.take_eq_nil_iff]
      simp [hd]
  · rw [MarketDataWindow.low]
    by_cases hd : w.data = []
    · simp [hd]
    · rw [if_neg (by simp [hd])]
      rw [List.min?_eq_none_iff, List.map_eq_nil_iff, List.take_eq_nil_iff]
      simp [hd]
  · by_cases hd : w.data = []
    · simp [MarketDataWindow.avg_volume, hd]
    · by_cases hn : n = 0
      · simp [MarketDataWindow.avg_volume, hd, hn]
      · have hval : ((w.data.reverse.take n).map (·.volume)) ≠ [] := by
          simp [List.take_eq_nil_iff, hd, hn]
        simp [MarketDataWindow.avg_volume, hd, hn, hval]

/-- C8 witness: capacity `3` with four pushes keeps the last three bars;
window queries evaluated on a two-bar window at `n = 1`. -/
theorem claim_C8_witness :
    ((MarketDataWindow.new 3).pushList [barS1, barEth, barS1, barEth]).data =
      [barS1, barEth, barS1, barEth].drop
        ([barS1, barEth, barS1, barEth].length - 3) ∧
    ((MarketDataWindow.new 3).pushList [barS1, barEth, barS1, barEth]).len =
      min [barS1, barEth, barS1, barEth].length 3 ∧
    ((MarketDataWindow.new 2).pushList [barS1, barEth]).closes 1 =
      ((((MarketDataWindow.new 2).pushList [barS1, barEth]).data.drop
        (((MarketDataWindow.new 2).pushList [barS1, barEth]).data.length - 1)).map
          (·.close)) ∧
    (((MarketDataWindow.new 2).pushList [barS1, barEth]).high 1 = none ↔
      (((MarketDataWindow.new 2).pushList [barS1, barEth]).data = [] ∨ 1 = 0)) ∧
    (((MarketDataWindow.new 2).pushList [barS1, barEth]).low 1 = none ↔
      (((MarketDataWindow.new 2).pushList [barS1, barEth]).data = [] ∨ 1 = 0)) ∧
    (((MarketDataWindow.new 2).pushList [barS1, barEth]).avg_volume 1 = none ↔
      (((MarketDataWindow.new 2).pushList [barS1, barEth]).data = [] ∨ 1 = 0)) :=
  claim_C8_amended 3 (by decide) [barS1, barEth, barS1, barEth]
    ((MarketDataWindow.new 2).pushList [barS1, barEth]) 1

/-- Looking up the key just inserted yields the inserted value. -/
theorem lookupA_insertA_self {α : Type} (m : List (String × α)) (k : String)
    (v : α) : lookupA (insertA m k v) k = some v := by
  induction m with
  | nil => simp [insertA, lookupA]
  | cons hd tl ih =>
    obtain ⟨k', v'⟩ := hd
    by_cases h : k' = k
    · simp [insertA, h, lookupA]
    · simp [insertA, h, lookupA, ih]

/-- Looking up a different key is unaffected by an insert. -/
theorem lookupA_insertA_ne {α : Type} (m : List (String × α)) (k k' : String)
    (v : α) (h : k' ≠ k) : lookupA (insertA m k v) k' = lookupA m k' := by
  induction m with
  | nil => simp [insertA, lookupA, Ne.symm h]
  | cons hd tl ih =>
    obtain ⟨k0, v0⟩ := hd
    by_cases h0 : k0 = k
    · subst h0
      simp [insertA, lookupA, h, Ne.symm h]
    · by_cases h1 : k0 = k'
      · subst h1
        simp [insertA, h0, lookupA]
      · simp [insertA, h0, lookupA, h1, ih]

/-- A successful lookup names a pair of the association list. -/
theorem lookupA_mem {α : Type} (m : List (String × α)) (k : String) (v : α)
    (h : lookupA m k = some v) : (k, v) ∈ m := by
  induction m with
  | nil => simp [lookupA] at h
  | cons hd tl ih =>
    obtain ⟨k0, v0⟩ := hd
    by_cases h0 : k0 = k
    · subst h0
      simp only [lookupA, if_pos rfl] at h
      cases h
      exact List.mem_cons_self _ _
    · simp only [lookupA, if_neg h0] at h
      exact List.mem_cons_of_mem _ (ih h)

/-- Every pair of an insert result is the inserted pair or an original
pair. -/
theorem mem_insertA {α : Type} (m : List (String × α)) (k : String) (v : α)
    (p : String × α) (h : p ∈ insertA m k v) : p = (k, v) ∨ p ∈ m := by
  induction m with
  | nil =>
    simp [insertA] at h
    exact Or.inl h
  | cons hd tl ih =>
    obtain ⟨k0, v0⟩ := hd
    by_cases h0 : k0 = k
    · simp only [insertA, if_pos h0] at h
      rcases List.mem_cons.mp h with h | h
      · exact Or.inl h
      · exact Or.inr (List.mem_cons_of_mem _ h)
    · simp only [insertA, if_neg h0] at h
      rcases List.mem_cons.mp h with h | h
      · exact Or.inr (h ▸ List.mem_cons_self _ _)
      · rcases ih h with h | h
        · exact Or.inl h
        · exact Or.inr (List.mem_cons_of_mem _ h)

/-- `feedLoop` never reports `NoRunnersForSymbol`; its only error is
`ChannelClosed`. -/
theorem feedLoop_ne_noRunners (bar : MarketData) (s : String) :
    ∀ (ids : List String) (e : TradingEngine),
      e.feedLoop ids bar ≠ .error (.NoRunnersForSymbol s) := by
  intro ids
  induction ids with
  | nil => intro e h; cases h
  | cons j rest ih =>
    intro e
    cases hj : lookupA e.runners j with
    | none =>
      rw [TradingEngine.feedLoop, hj]
      exact ih e
    | some hdl =>
      simp only [TradingEngine.feedLoop, hj]
      by_cases hc : hdl.closed
      · rw [if_pos hc]
        simp
      · rw [if_neg hc]
        exact ih _

/-- When every subscribed runner with a handle has an open channel,
`feedLoop` succeeds, appends exactly one clone of the bar to each
subscribed runner's inbox, and leaves every other runner untouched. -/
theorem feedLoop_all_open (bar : MarketData) :
    ∀ (ids : List String) (e : TradingEngine),
      ids.Nodup →
      (∀ id ∈ ids, ∀ h, lookupA e.runners id = some h → h.closed = false) →
      ∃ e', e.feedLoop ids bar = .ok e' ∧
        (∀ id ∈ ids, ∀ h, lookupA e.runners id = some h →
          lookupA e'.runners id = some { h with inbox := h.inbox ++ [bar] }) ∧
        (∀ id, id ∉ ids → lookupA e'.runners id = lookupA e.runners id) := by
  intro ids
  induction ids with
  | nil =>
    intro e _ _
    exact ⟨e, rfl, by simp, fun id _ => rfl⟩
  | cons j rest ih =>
    intro e hnd hopen
    have hjrest : j ∉ rest := (List.nodup_cons.mp hnd).1
    cases hj : lookupA e.runners j with
    | none =>
      obtain ⟨e', hrun, hsub, hunch⟩ := ih e (List.nodup_cons.mp hnd).2
        (fun x hx => hopen x (List.mem_cons_of_mem _ hx))
      refine ⟨e', ?_, ?_, ?_⟩
      · simp only [TradingEngine.feedLoop, hj]
        exact hrun
      · intro id hid h hlook
        rcases List.mem_cons.mp hid with rfl | hid'
        · rw [hj] at hlook; cases hlook
        · exact hsub id hid' h hlook
      · intro id hid
        exact hunch id (fun hx => hid (List.mem_cons_of_mem _ hx))
    | some hdl =>
      have hcl : hdl.closed = false := hopen j (List.mem_cons_self _ _) hdl hj
      have hopen2 : ∀ x ∈ rest, ∀ h,
          lookupA (insertA e.runners j
            (RunnerHandle.mk hdl.runner_id hdl.symbol (hdl.inbox ++ [bar])
              hdl.closed)) x = some h → h.closed = false := by
        intro x hx h hlx
        by_cases hxj : x = j
        · subst hxj
          rw [lookupA_insertA_self] at hlx
          cases hlx
          exact hcl
        · rw [lookupA_insertA_ne _ _ _ _ hxj] at hlx
          exact hopen x (List.mem_cons_of_mem _ hx) h hlx
      obtain ⟨e', hrun, hsub, hunch⟩ := ih
        (TradingEngine.mk
          (insertA e.runners j
            (RunnerHandle.mk hdl.runner_id hdl.symbol (hdl.inbox ++ [bar])
              hdl.closed))
          e.subscriptions)
        (List.nodup_cons.mp hnd).2 hopen2
      refine ⟨e', ?_, ?_, ?_⟩
      · simp only [TradingEngine.feedLoop, hj]
        rw [if_neg (by simp [hcl])]
        exact hrun
      · intro id hid h hlook
        rcases List.mem_cons.mp hid with rfl | hid'
        · rw [hj] at hlook
          cases hlook
          rw [hunch id hjrest]
          exact lookupA_insertA_self _ _ _
        · have hne : id ≠ j := fun hh => hjrest (hh ▸ hid')
          refine hsub id hid' h ?_
          rw [lookupA_insertA_ne _ _ _ _ hne]
          exact hlook
      · intro id hid
        have hne : id ≠ j := fun hh => hid (hh ▸ List.mem_cons_self _ _)
        rw [hunch id (fun hx => hid (List.mem_cons_of_mem _ hx))]
        exact lookupA_insertA_ne _ _ _ _ hne

/-- When the first subscribed runner with a closed channel is reached,
`feedLoop` fails with `ChannelClosed` of that runner's id. -/
theorem feedLoop_first_closed (bar : MarketData) :
    ∀ (pre : List String) (e : TradingEngine) (id : String)
      (post : List String) (hid : RunnerHandle),
      (∀ j ∈ pre, ∀ h, lookupA e.runners j = some h → h.closed = false) →
      lookupA e.runners id = some hid → hid.closed = true →
      e.feedLoop (pre ++ id :: post) bar = .error (.ChannelClosed id) := by
  intro pre
  induction pre with
  | nil =>
    intro e id post hid _ hlook hclosed
    rw [List.nil_append]
    simp only [TradingEngine.feedLoop, hlook]
    rw [if_pos hclosed]
  | cons j pre' ih =>
    intro e id post hid hpre hlook hclosed
    rw [List.cons_append]
    cases hj : lookupA e.runners j with
    | none =>
      rw [TradingEngine.feedLoop, hj]
      exact ih e id post hid
        (fun x hx => hpre x (List.mem_cons_of_mem _ hx)) hlook hclosed
    | some hdl =>
      have hopen : hdl.closed = false := hpre j (List.mem_cons_self _ _) hdl hj
      simp only [TradingEngine.feedLoop, hj]
      rw [if_neg (by simp [hopen])]
      have hij : id ≠ j := by
        intro hh
        subst hh
        rw [hj] at hlook
        cases hlook
        rw [hopen] at hclosed
        cases hclosed
      refine ih _ id post hid ?_ ?_ hclosed
      · intro x hx h hlx
        by_cases hxj : x = j
        · subst hxj
          rw [lookupA_insertA_self] at hlx
          cases hlx
          exact hopen
        · rw [lookupA_insertA_ne _ _ _ _ hxj] at hlx
          exact hpre x (List.mem_cons_of_mem _ hx) h hlx
      · rw [lookupA_insertA_ne _ _ _ _ hij]
        exact hlook

/-- A fresh engine is well-formed. -/
theorem TradingEngine.wf_new : TradingEngine.new.wf := by
  intro p hp
  simp [TradingEngine.new] at hp

/-- `add_runner` preserves well-formedness of the routing state. -/
theorem TradingEngine.wf_add_runner (e : TradingEngine) (id sym : String)
    (e' : TradingEngine) (hwf : e.wf) (h : e.add_runner id sym = .ok e') :
    e'.wf := by
  rw [TradingEngine.add_runner] at h
  by_cases hex : (lookupA e.runners id).isSome
  · rw [if_pos hex] at h; cases h
  · rw [if_neg hex] at h
    cases h
    intro p hp
    rcases mem_insertA _ _ _ _ hp with rfl | hold
    · refine ⟨by simp, ?_, ?_⟩
      · cases hl : lookupA e.subscriptions sym with
        | none => simp [hl]
        | some l =>
          obtain ⟨-, hnd, hh⟩ := hwf _ (lookupA_mem _ _ _ hl)
          have hid : id ∉ l := by
            intro hin
            exact hex (hh id hin)
          simp only [Option.getD_some]
          exact List.nodup_append.mpr ⟨hnd, List.nodup_singleton _,
            fun a ha hb => by
              simp only [List.mem_singleton] at hb
              exact hid (hb ▸ ha)⟩
      · intro x hx
        by_cases hxi : x = id
        · subst hxi
          rw [lookupA_insertA_self]
          rfl
        · rw [lookupA_insertA_ne _ _ _ _ hxi]
          rcases List.mem_append.mp hx with hx | hx
          · cases hl : lookupA e.subscriptions sym with
            | none => rw [hl] at hx; simp at hx
            | some l =>
              obtain ⟨-, -, hh⟩ := hwf _ (lookupA_mem _ _ _ hl)
              rw [hl] at hx
              simp only [Option.getD_some] at hx
              exact hh x hx
          · simp only [List.mem_singleton] at hx
            exact absurd hx hxi
    · obtain ⟨hne, hnd, hh⟩ := hwf p hold
      refine ⟨hne, hnd, ?_⟩
      intro x hx
      by_cases hxi : x = id
      · subst hxi
        rw [lookupA_insertA_self]
        rfl
      · rw [lookupA_insertA_ne _ _ _ _ hxi]
        exact hh x hx

/-- C9: on a well-formed engine, `feed_data(bar)` fails with
`NoRunnersForSymbol` exactly when no runner is subscribed to
`bar.symbol`; when all subscribed runners have open channels it
succeeds, appending exactly one clone of the bar to every subscribed
runner's inbox and leaving all other runners untouched; and when the
first subscribed runner with a closed channel is reached it fails with
`ChannelClosed` carrying that runner's id. -/
theorem claim_C9_feed_routing (e : TradingEngine) (bar : MarketData)
    (hwf : e.wf) :
    (e.feed_data bar = .error (.NoRunnersForSymbol bar.symbol) ↔
      (lookupA e.subscriptions bar.symbol).getD [] = []) ∧
    (∀ ids, lookupA e.subscriptions bar.symbol = some ids →
      ((∀ id ∈ ids, ∀ h, lookupA e.runners id = some h → h.closed = false) →
        ∃ e', e.feed_data bar = .ok e' ∧
          (∀ id ∈ ids, ∀ h, lookupA e.runners id = some h →
            lookupA e'.runners id = some { h with inbox := h.inbox ++ [bar] }) ∧
          (∀ id, id ∉ ids → lookupA e'.runners id = lookupA e.runners id)) ∧
      (∀ pre id post hid, ids = pre ++ id :: post →
        (∀ j ∈ pre, ∀ h, lookupA e.runners j = some h → h.closed = false) →
        lookupA e.runners id = some hid → hid.closed = true →
        e.feed_data bar = .error (.ChannelClosed id))) := by
  constructor
  · constructor
    · intro herr
      cases hlk : lookupA e.subscriptions bar.symbol with
      | none => rfl
      | some ids =>
        simp only [TradingEngine.feed_data, hlk] at herr
        exact absurd herr (feedLoop_ne_noRunners bar bar.symbol ids e)
    · intro hempty
      cases hlk : lookupA e.subscriptions bar.symbol with
      | none => simp only [TradingEngine.feed_data, hlk]
      | some ids =>
        rw [hlk] at hempty
        simp only [Option.getD_some] at hempty
        have := (hwf _ (lookupA_mem _ _ _ hlk)).1
        exact absurd hempty this
  · intro ids hlk
    obtain ⟨hne, hnd, hhandles⟩ := hwf _ (lookupA_mem _ _ _ hlk)
    constructor
    · intro hopen
      obtain ⟨e', hrun, hsub, hunch⟩ := feedLoop_all_open bar ids e hnd hopen
      refine ⟨e', ?_, hsub, hunch⟩
      simp only [TradingEngine.feed_data, hlk]
      exact hrun
    · intro pre id post hid hids hpre hlook hclosed
      simp only [TradingEngine.feed_data, hlk]
      rw [hids]
      exact feedLoop_first_closed bar pre e id post hid hpre hlook hclosed

/-- C9 witness: the engine with runner `"a"` on `"ETHUSDT"` (built by
`add_runner`) fed an `"ETHUSDT"` bar. -/
theorem claim_C9_witness :
    (engineEth.feed_data barEth =
        .error (.NoRunnersForSymbol barEth.symbol) ↔
      (lookupA engineEth.subscriptions barEth.symbol).getD [] = []) ∧
    (∀ ids, lookupA engineEth.subscriptions barEth.symbol = some ids →
      ((∀ id ∈ ids, ∀ h, lookupA engineEth.runners id = some h →
          h.closed = false) →
        ∃ e', engineEth.feed_data barEth = .ok e' ∧
          (∀ id ∈ ids, ∀ h, lookupA engineEth.runners id = some h →
            lookupA e'.runners id =
              some { h with inbox := h.inbox ++ [barEth] }) ∧
          (∀ id, id ∉ ids →
            lookupA e'.runners id = lookupA engineEth.runners id)) ∧
      (∀ pre id post hid, ids = pre ++ id :: post →
        (∀ j ∈ pre, ∀ h, lookupA engineEth.runners j = some h →
          h.closed = false) →
        lookupA engineEth.runners id = some hid → hid.closed = true →
        engineEth.feed_data barEth = .error (.ChannelClosed id))) :=
  claim_C9_feed_routing engineEth barEth
    (by unfold TradingEngine.wf; decide)

end TradingSim
